import Mathlib

/-!
Verification of the batch extraction-and-validation pipeline in src/main.py.

The development shallowly embeds the pure parts of the program:

* the module-level regex validators (validate_phone_number, validate_linkedin_url,
  validate_x_twitter_url), which clear a bad field to None and never raise;
* the pydantic field validators on the Company model, which raise ValueError on a
  bad field (modelled as Except.error), so one bad field invalidates the whole
  parsed batch;
* the staging logic of process_batch: the insert filter discarding values that are
  None, the empty string or the literal string "None", and the row layout written
  into the DuckDB companies table;
* the producer loop of process_csv: empty-row skipping, batch sealing at
  batch_size, submission of the final partial buffer, and the tqdm progress
  updates, as an explicit event trace.

Regex matching is implemented directly on character lists, following each regex of
the source character by character.  Machinery the repository only calls into
(pydantic EmailStr / HttpUrl shape checks) is modelled from the spec and marked as
such in doc comments.  Timestamps written by log_error are threaded through as an
abstract parameter of the run.
-/

set_option maxHeartbeats 1000000

/-- Characters matched by Python regex whitespace class (ASCII range), used by the
permissive phone pattern of the module-level validator. -/
def isPySpaceChar (c : Char) : Bool :=
  c == ' ' || c == '\t' || c == '\n' || c == '\r' || c == Char.ofNat 11 || c == Char.ofNat 12

/-- Auxiliary: does the first list start with the second one. -/
def listStartsWith : List Char → List Char → Bool
  | _, [] => true
  | [], _ :: _ => false
  | c :: cs, d :: ds => c == d && listStartsWith cs ds

/-- Auxiliary: does the second list contain the first as a contiguous run. -/
def listContainsSeq (needle : List Char) : List Char → Bool
  | [] => needle.isEmpty
  | c :: cs => listStartsWith (c :: cs) needle || listContainsSeq needle cs

/-- Python substring membership test, needle in hay. -/
def substrIn (needle hay : String) : Bool := listContainsSeq needle.data hay.data

/-- Consume an optional leading plus sign, as the leading part of both phone
regexes of the source. -/
def dropLeadPlus : List Char → List Char
  | [] => []
  | c :: cs => if c = '+' then cs else c :: cs

/-- Matcher for the strict phone regex of Company.validate_phone_number: an
optional leading plus sign followed by 7 to 15 digits and nothing else. -/
def strictPhoneMatch (s : String) : Bool :=
  decide (7 ≤ (dropLeadPlus s.data).length) && decide ((dropLeadPlus s.data).length ≤ 15)
    && (dropLeadPlus s.data).all Char.isDigit

/-- Character class of the permissive phone regex: digits, whitespace, dashes and
parentheses. -/
def isPermPhoneChar (c : Char) : Bool :=
  c.isDigit || isPySpaceChar c || c == '-' || c == '(' || c == ')'

/-- Matcher for the permissive phone regex of the module-level
validate_phone_number: an optional leading plus sign followed by 7 to 20
characters from the permissive class and nothing else. -/
def permissivePhoneMatch (s : String) : Bool :=
  decide (7 ≤ (dropLeadPlus s.data).length) && decide ((dropLeadPlus s.data).length ≤ 20)
    && (dropLeadPlus s.data).all isPermPhoneChar

/-- Characters kept by the re.sub in Company.validate_phone_number: digits and
plus signs. -/
def isPhoneChar (c : Char) : Bool := c.isDigit || c == '+'

/-- Python re.sub removing every character that is not a digit or a plus sign. -/
def stripNonDigitPlus (s : String) : String := String.mk (s.data.filter isPhoneChar)

/-- Module-level validate_phone_number of src/main.py: an empty or missing value
passes through; otherwise the value is kept only if it matches the permissive
phone regex, and cleared to None on mismatch.  Never raises. -/
def validate_phone_number : Option String → Option String
  | none => none
  | some v => if v = "" then some v else if permissivePhoneMatch v then some v else none

/-- Module-level validate_linkedin_url of src/main.py: a truthy value lacking the
substring linkedin.com is cleared to None; everything else passes through. -/
def validate_linkedin_url : Option String → Option String
  | none => none
  | some v => if v = "" then some v else if substrIn "linkedin.com" v then some v else none

/-- Module-level validate_x_twitter_url of src/main.py: a truthy value lacking
both substrings twitter.com and x.com is cleared to None; everything else passes
through. -/
def validate_x_twitter_url : Option String → Option String
  | none => none
  | some v =>
    if v = "" then some v
    else if substrIn "twitter.com" v || substrIn "x.com" v then some v else none

/-- Currency symbols of the Ticket_Size regex character class. -/
def isCurrencyChar (c : Char) : Bool := c == '$' || c == '€' || c == '₹'

/-- Consume the optional leading currency symbol of the Ticket_Size regex. -/
def dropLeadCurrency : List Char → List Char
  | [] => []
  | c :: cs => if isCurrencyChar c then cs else c :: cs

/-- Consume the optional single whitespace before the magnitude suffix of the
Ticket_Size regex. -/
def dropLeadSpaceOpt : List Char → List Char
  | [] => []
  | c :: cs => if isPySpaceChar c then cs else c :: cs

/-- Case-insensitive match of the optional magnitude suffix alternatives of the
Ticket_Size regex. -/
def ticketSuffixOK (l : List Char) : Bool :=
  let u := l.map Char.toUpper
  u == [] || u == ['M'] || u == ['K'] || u == ['C', 'R'] || u == ['L'] ||
    u == "MILLION".data || u == "THOUSAND".data

/-- Optional fractional part of the Ticket_Size regex: a dot must be followed by
at least one digit; returns the remainder, or none when the match fails. -/
def fracPartOK : List Char → Option (List Char)
  | '.' :: rest =>
      if (rest.takeWhile Char.isDigit).isEmpty then none
      else some (rest.dropWhile Char.isDigit)
  | l => some l

/-- Matcher for the Ticket_Size regex of Company.validate_ticket_size: optional
currency symbol, one or more digits, optional fractional part, optional single
whitespace, optional magnitude suffix, case-insensitively, and nothing else. -/
def ticketMatches (s : String) : Bool :=
  let l1 := dropLeadCurrency s.data
  if (l1.takeWhile Char.isDigit).isEmpty then false
  else
    match fracPartOK (l1.dropWhile Char.isDigit) with
    | none => false
    | some r3 => ticketSuffixOK (dropLeadSpaceOpt r3)

/-- Split a character list at every character satisfying the predicate, keeping
empty pieces, like Python str.split with a single-character separator. -/
def splitOnChar (p : Char → Bool) : List Char → List (List Char)
  | [] => [[]]
  | c :: cs =>
    if p c then [] :: splitOnChar p cs
    else
      match splitOnChar p cs with
      | h :: t => (c :: h) :: t
      | [] => [[c]]

/-- Modelled from the spec: pydantic EmailStr is library code not under src; the
spec calls a value without an at-sign and domain invalid, so the model accepts
exactly the strings with a single at-sign separating a nonempty local part from a
nonempty domain that contains a dot. -/
def isValidEmail (s : String) : Bool :=
  match splitOnChar (fun c => c == '@') s.data with
  | [l, d] => !(l.isEmpty) && !(d.isEmpty) && d.contains '.'
  | _ => false

/-- Modelled from the spec: pydantic HttpUrl is library code not under src; the
spec describes URL-shaped strings, modelled as strings carrying an http or https
scheme.  The URL normalisation pydantic performs is not modelled: validated URL
values are kept verbatim. -/
def isHttpUrl (s : String) : Bool :=
  listStartsWith s.data "http://".data || listStartsWith s.data "https://".data

/-- Pydantic type validation of an optional HttpUrl field. -/
def checkOptUrl : Option String → Except String (Option String)
  | none => Except.ok none
  | some s => if isHttpUrl s then Except.ok (some s) else Except.error "invalid URL"

/-- Pydantic type validation of an optional EmailStr field. -/
def checkOptEmail : Option String → Except String (Option String)
  | none => Except.ok none
  | some s =>
    if isValidEmail s then Except.ok (some s)
    else Except.error "value is not a valid email address"

/-- Raw candidate record carried by the extraction response, before pydantic
validation; every attribute is a plain optional string. -/
structure RawCompany where
  Company_Name : String
  Company_Website : Option String
  Company_Location : Option String
  Company_Phone_Number : Option String
  Email : Option String
  LinkedIn_Link : Option String
  Sector : Option String
  Ticket_Size : Option String
  X_Twitter_Account_Link : Option String
  Funding_Round : Option String
  Individual_or_Corporation : Option String
  deriving DecidableEq, Repr

/-- Company model of src/main.py after successful pydantic validation. -/
structure Company where
  Company_Name : String
  Company_Website : Option String
  Company_Location : Option String
  Company_Phone_Number : Option String
  Email : Option String
  LinkedIn_Link : Option String
  Sector : Option String
  Ticket_Size : Option String
  X_Twitter_Account_Link : Option String
  Funding_Round : Option String
  Individual_or_Corporation : Option String
  deriving DecidableEq, Repr

/-- Company.validate_phone_number field validator: a falsy value passes through;
otherwise all characters except digits and plus signs are removed and the result
must match the strict phone regex, else ValueError is raised (modelled as
Except.error).  On success the stripped value, not the original, is stored. -/
def Company.validate_phone_number : Option String → Except String (Option String)
  | none => Except.ok none
  | some v =>
    if v = "" then Except.ok (some v)
    else if strictPhoneMatch (stripNonDigitPlus v) then Except.ok (some (stripNonDigitPlus v))
    else Except.error "Invalid phone number format"

/-- Company.validate_linkedin_url field validator: a truthy value lacking the
substring linkedin.com raises ValueError (modelled as Except.error); everything
else passes through. -/
def Company.validate_linkedin_url : Option String → Except String (Option String)
  | none => Except.ok none
  | some v =>
    if v = "" then Except.ok (some v)
    else if substrIn "linkedin.com" v then Except.ok (some v)
    else Except.error "Invalid LinkedIn URL. Must contain linkedin.com"

/-- Company.validate_x_twitter_url field validator: a truthy value lacking both
substrings twitter.com and x.com raises ValueError (modelled as Except.error);
everything else passes through. -/
def Company.validate_x_twitter_url : Option String → Except String (Option String)
  | none => Except.ok none
  | some v =>
    if v = "" then Except.ok (some v)
    else if substrIn "twitter.com" v || substrIn "x.com" v then Except.ok (some v)
    else Except.error "Invalid Twitter/X URL. Must contain twitter.com or x.com"

/-- Company.validate_ticket_size field validator: a truthy value must match the
Ticket_Size regex, else ValueError is raised (modelled as Except.error); matching
and falsy values pass through unchanged. -/
def Company.validate_ticket_size : Option String → Except String (Option String)
  | none => Except.ok none
  | some v =>
    if v = "" then Except.ok (some v)
    else if ticketMatches v then Except.ok (some v)
    else Except.error "Invalid Ticket Size format"

/-- Pydantic validation of one Company from a raw candidate: shape checks of the
URL and email fields and the four field validators, in field declaration order.
Any failing field makes the whole model invalid.  Pydantic collects every field
error into one ValidationError; the model keeps the first error message, which
does not change which candidates validate. -/
def validateCompany (r : RawCompany) : Except String Company := do
  let website ← checkOptUrl r.Company_Website
  let phone ← Company.validate_phone_number r.Company_Phone_Number
  let email ← checkOptEmail r.Email
  let linkedin ← checkOptUrl r.LinkedIn_Link
  let linkedin ← Company.validate_linkedin_url linkedin
  let ticket ← Company.validate_ticket_size r.Ticket_Size
  let xlink ← checkOptUrl r.X_Twitter_Account_Link
  let xlink ← Company.validate_x_twitter_url xlink
  pure ⟨r.Company_Name, website, r.Company_Location, phone, email, linkedin,
        r.Sector, ticket, xlink, r.Funding_Round, r.Individual_or_Corporation⟩

/-- PartialCompanyList.model_validate_json over the companies list: every
candidate must validate, else the whole parse raises ValidationError. -/
def validateAll : List RawCompany → Except String (List Company)
  | [] => Except.ok []
  | r :: rs => do
      let c ← validateCompany r
      let cs ← validateAll rs
      pure (c :: cs)

/-- Pydantic model_dump of a Company as an association list in field declaration
order; the mandatory name dumps as a present value. -/
def model_dump (c : Company) : List (String × Option String) :=
  [("Company_Name", some c.Company_Name),
   ("Company_Website", c.Company_Website),
   ("Company_Location", c.Company_Location),
   ("Company_Phone_Number", c.Company_Phone_Number),
   ("Email", c.Email),
   ("LinkedIn_Link", c.LinkedIn_Link),
   ("Sector", c.Sector),
   ("Ticket_Size", c.Ticket_Size),
   ("X_Twitter_Account_Link", c.X_Twitter_Account_Link),
   ("Funding_Round", c.Funding_Round),
   ("Individual_or_Corporation", c.Individual_or_Corporation)]

/-- Value filter of process_batch: keeps a dumped value unless it is None, the
empty string or the literal string "None". -/
def keepVal : Option String → Bool
  | none => false
  | some s => !(s == "" || s == "None")

/-- The valid_data dictionary built inside process_batch. -/
def valid_data (c : Company) : List (String × Option String) :=
  (model_dump c).filter (fun kv => keepVal kv.2)

/-- Python valid_data.get(key, "") with the surviving optional value unwrapped. -/
def getOr (d : List (String × Option String)) (k : String) : String :=
  match d.find? (fun kv => kv.1 == k) with
  | some kv => kv.2.getD ""
  | none => ""

/-- The row of column values inserted into the DuckDB companies table for one
validated candidate, in the fixed schema order. -/
def stagedRow (c : Company) : List String :=
  [getOr (valid_data c) "Company_Name",
   getOr (valid_data c) "Company_Website",
   getOr (valid_data c) "Company_Location",
   getOr (valid_data c) "Company_Phone_Number",
   getOr (valid_data c) "Email",
   getOr (valid_data c) "LinkedIn_Link",
   getOr (valid_data c) "Sector",
   getOr (valid_data c) "Ticket_Size",
   getOr (valid_data c) "X_Twitter_Account_Link",
   getOr (valid_data c) "Funding_Round",
   getOr (valid_data c) "Individual_or_Corporation"]

/-- Staging performed by the insert loop of process_batch: a candidate is
inserted exactly when its valid_data dictionary is nonempty. -/
def stagedOf (cs : List Company) : List (List String) :=
  (cs.filter (fun c => !(valid_data c).isEmpty)).map stagedRow

/-- One line written through log_error: the wall-clock timestamp it records and
the message. -/
structure LogLine where
  timestamp : Nat
  message : String
  deriving DecidableEq, Repr

/-- Processing of one work unit by process_batch: a failed extraction call or a
pydantic ValidationError skips the whole batch and appends one error-log line;
otherwise every validated candidate passing the insert filter is staged.  The
extraction outcome for the unit is passed in as an Except value; the parameter t
stands for the wall-clock time log_error stamps on the line. -/
def process_batch (t : Nat) (extractResult : Except String (List RawCompany)) :
    List (List String) × List LogLine :=
  match extractResult with
  | Except.error e => ([], [⟨t, "Skipping batch due to unexpected error: " ++ e⟩])
  | Except.ok raws =>
    match validateAll raws with
    | Except.error e => ([], [⟨t, "Skipping batch due to validation error: " ++ e⟩])
    | Except.ok cs => (stagedOf cs, [])

/-- One input CSV row, a list of string fields. -/
abbrev RawRecord := List String

/-- Python any(row): true exactly when some field of the row is a nonempty
string. -/
def rowNonEmpty (r : RawRecord) : Bool := r.any (fun s => !(s == ""))

/-- Observable actions of the producer loop in process_csv: submitting a sealed
work unit to the executor, and a tqdm progress update of a given increment. -/
inductive Event where
  | submit (unit : List RawRecord) : Event
  | progress (inc : Nat) : Event
  deriving DecidableEq, Repr

/-- The producer loop of process_csv over the remaining rows, carrying the
current rows_buffer: empty rows are skipped; a nonempty row is appended to the
buffer; once the buffer reaches batch_size it is submitted and reset, and in
either case the progress bar advances by one; after the loop a nonempty leftover
buffer is submitted and the progress bar advances by its full length again. -/
def producerAux (B : Nat) (buffer : List RawRecord) : List RawRecord → List Event
  | [] =>
    if buffer.isEmpty then []
    else [Event.submit buffer, Event.progress buffer.length]
  | r :: rest =>
    if rowNonEmpty r then
      if B ≤ buffer.length + 1 then
        Event.submit (buffer ++ [r]) :: Event.progress 1 :: producerAux B [] rest
      else
        Event.progress 1 :: producerAux B (buffer ++ [r]) rest
    else producerAux B buffer rest

/-- Full event trace of the producer loop started with an empty buffer. -/
def producerTrace (B : Nat) (rows : List RawRecord) : List Event :=
  producerAux B [] rows

/-- The work units submitted during a trace, in submission order. -/
def submitsOf (tr : List Event) : List (List RawRecord) :=
  tr.filterMap (fun e => match e with
    | Event.submit u => some u
    | Event.progress _ => none)

/-- The sequence of work units the dispatcher creates for the given rows. -/
def makeUnits (B : Nat) (rows : List RawRecord) : List (List RawRecord) :=
  submitsOf (producerTrace B rows)

/-- The progress increments reported during a trace, in order. -/
def progressIncs (tr : List Event) : List Nat :=
  tr.filterMap (fun e => match e with
    | Event.progress k => some k
    | Event.submit _ => none)

/-- Total amount the progress counter advances over a trace. -/
def sumIncs (tr : List Event) : Nat := (progressIncs tr).sum

/-- Successive values of the tqdm counter, starting at zero, after each progress
update of the producer loop. -/
def progressValues (B : Nat) (rows : List RawRecord) : List Nat :=
  List.scanl (fun a b => a + b) 0 (progressIncs (producerTrace B rows))

/-- Reference chunking of an already-filtered record stream, mirroring the
buffer discipline of the producer loop without the progress events. -/
def chunkAux {α : Type} (B : Nat) (buffer : List α) : List α → List (List α)
  | [] => if buffer.isEmpty then [] else [buffer]
  | r :: rest =>
    if B ≤ buffer.length + 1 then (buffer ++ [r]) :: chunkAux B [] rest
    else chunkAux B (buffer ++ [r]) rest

/-- Chunking started with an empty buffer. -/
def chunks {α : Type} (B : Nat) (l : List α) : List (List α) := chunkAux B [] l

/-- All rows staged over a run of n work units whose extraction outcomes are
given by the oracle, concatenated in unit order. -/
def runStaged (t : Nat) (extract : Nat → Except String (List RawCompany)) (n : Nat) :
    List (List String) :=
  ((List.range n).map (fun i => (process_batch t (extract i)).1)).flatten

/-- All error-log lines written over a run of n work units. -/
def runLog (t : Nat) (extract : Nat → Except String (List RawCompany)) (n : Nat) :
    List LogLine :=
  ((List.range n).map (fun i => (process_batch t (extract i)).2)).flatten

/-- Candidate of concrete scenario A: name, a dashed phone value and a malformed
email. -/
def c2raw : RawCompany :=
  ⟨"Acme Corp", none, none, some "555-1234567", some "bad-email",
    none, none, none, none, none, none⟩

/-- Candidate whose phone value strips to five digits and therefore fails the
strict phone regex. -/
def badPhoneRaw : RawCompany :=
  ⟨"Acme", none, none, some "12345", none, none, none, none, none, none, none⟩

/-- Candidate whose only nonempty field is the mandatory name. -/
def nameOnlyRaw : RawCompany :=
  ⟨"Acme Corp Only", none, none, none, none, none, none, none, none, none, none⟩

/-- Validated company all of whose dumped values are None, the empty string or
the literal string "None". -/
def noneishCompany : Company :=
  ⟨"None", some "", some "None", none, some "", some "None", none, some "",
    some "None", none, some ""⟩

/-- Validated company whose only nonempty field is the mandatory name. -/
def nameOnlyCompany : Company :=
  ⟨"Acme Corp Only", none, none, none, none, none, none, none, none, none, none⟩

/-- Three nonempty single-field rows. -/
def rows3 : List RawRecord := [["x"], ["y"], ["z"]]

/-- Four rows, the second fully empty. -/
def rows4 : List RawRecord := [["a"], ["", ""], ["b"], ["c"]]

/-- Extraction oracle failing on unit 0 and yielding one name-only candidate on
every other unit. -/
def extractW : Nat → Except String (List RawCompany) :=
  fun i => if i = 0 then Except.error "boom" else Except.ok [nameOnlyRaw]

theorem all_isDigit_isPhoneChar (l : List Char) (h : l.all Char.isDigit = true) :
    l.all isPhoneChar = true := by
  simp only [List.all_eq_true] at h ⊢
  intro x hx
  simp [isPhoneChar, h x hx]

theorem strictPhoneMatch_all_phoneChar (s : String) (h : strictPhoneMatch s = true) :
    s.data.all isPhoneChar = true := by
  unfold strictPhoneMatch at h
  simp only [Bool.and_eq_true, decide_eq_true_eq] at h
  obtain ⟨⟨h1, _⟩, h3⟩ := h
  cases hd : s.data with
  | nil => rw [hd] at h1; simp [dropLeadPlus] at h1
  | cons c cs =>
    rw [hd] at h3
    by_cases hc : c = '+'
    · subst hc
      simp only [dropLeadPlus, if_pos rfl] at h3
      simp only [List.all_cons, Bool.and_eq_true]
      exact ⟨by decide, all_isDigit_isPhoneChar _ h3⟩
    · simp only [dropLeadPlus, if_neg hc] at h3
      exact all_isDigit_isPhoneChar _ h3

theorem strictPhoneMatch_ne_empty (s : String) (h : strictPhoneMatch s = true) : s ≠ "" := by
  intro heq
  rw [heq] at h
  exact absurd h (by decide)

theorem stripNonDigitPlus_of_all_phoneChar (s : String) (h : s.data.all isPhoneChar = true) :
    stripNonDigitPlus s = s := by
  unfold stripNonDigitPlus
  simp only [List.all_eq_true] at h
  rw [List.filter_eq_self.mpr h]

theorem stripNonDigitPlus_idem (s : String) :
    stripNonDigitPlus (stripNonDigitPlus s) = stripNonDigitPlus s := by
  apply stripNonDigitPlus_of_all_phoneChar
  simp only [stripNonDigitPlus, List.all_eq_true]
  intro x hx
  exact List.of_mem_filter hx

theorem strictPhoneMatch_strip_fixed (s : String) (h : strictPhoneMatch s = true) :
    stripNonDigitPlus s = s :=
  stripNonDigitPlus_of_all_phoneChar s (strictPhoneMatch_all_phoneChar s h)

theorem linkedin_passThrough (v w : Option String)
    (h : Company.validate_linkedin_url v = Except.ok w) : w = v := by
  cases v with
  | none => simpa [Company.validate_linkedin_url] using h.symm
  | some s =>
    simp only [Company.validate_linkedin_url] at h
    split_ifs at h <;> simp_all

theorem x_twitter_passThrough (v w : Option String)
    (h : Company.validate_x_twitter_url v = Except.ok w) : w = v := by
  cases v with
  | none => simpa [Company.validate_x_twitter_url] using h.symm
  | some s =>
    simp only [Company.validate_x_twitter_url] at h
    split_ifs at h <;> simp_all

theorem ticket_passThrough (v w : Option String)
    (h : Company.validate_ticket_size v = Except.ok w) : w = v := by
  cases v with
  | none => simpa [Company.validate_ticket_size] using h.symm
  | some s =>
    simp only [Company.validate_ticket_size] at h
    split_ifs at h <;> simp_all

theorem filter_isEmpty_eq_not_any {α : Type} (p : α → Bool) (l : List α) :
    (l.filter p).isEmpty = !(l.any p) := by
  induction l with
  | nil => rfl
  | cons a l ih =>
    cases ha : p a <;> simp [List.filter_cons, List.any_cons, ha, ih]

/-- C1 (code_bug evidence): a malformed phone value in a candidate makes the
pydantic field validator raise, and process_batch then discards the whole batch
with an error-log line, while the module-level validator of the same field kind
merely clears the value; the field is not cleared and the record is not kept, so
the claim that validation never raises and never discards the record or batch
fails on the pydantic path the pipeline actually uses. -/
theorem c1_malformed_phone_discards_batch :
    validate_phone_number (some "12345") = none ∧
    Company.validate_phone_number (some "12345") = Except.error "Invalid phone number format" ∧
    process_batch 0 (Except.ok [badPhoneRaw]) =
      ([], [⟨0, "Skipping batch due to validation error: Invalid phone number format"⟩]) :=
  ⟨by decide, rfl, rfl⟩

/-- C2 (counterexample): on the scenario-A candidate the pipeline stages no row
at all — the malformed email makes the whole batch fail pydantic validation — so
the claimed staged row Acme Corp,,,555-1234567,,,,,,, is not produced. -/
theorem c2_counterexample :
    (process_batch 0 (Except.ok [c2raw])).1 = [] ∧
    (process_batch 0 (Except.ok [c2raw])).1 ≠
      [["Acme Corp", "", "", "555-1234567", "", "", "", "", "", "", ""]] :=
  ⟨rfl, by decide⟩

/-- C2 (amended): for the scenario-A candidate the Email value fails the email
shape check, the batch parse raises ValidationError, and process_batch skips the
batch, staging zero rows and appending one error-log line. -/
theorem c2_scenario_a_amended (t : Nat) :
    process_batch t (Except.ok [c2raw]) =
      ([], [⟨t, "Skipping batch due to validation error: value is not a valid email address"⟩]) :=
  rfl

/-- C3 (counterexample): a validated candidate whose only nonempty field is the
mandatory name is staged — the insert filter counts the name — contradicting the
claim that such a candidate produces no staged row. -/
theorem c3_counterexample :
    (process_batch 0 (Except.ok [nameOnlyRaw])).1 =
      [["Acme Corp Only", "", "", "", "", "", "", "", "", "", ""]] ∧
    (process_batch 0 (Except.ok [nameOnlyRaw])).1 ≠ [] :=
  ⟨rfl, by decide⟩

/-- C3 (amended): the insert policy is the permissive, name-included one — a
validated candidate is staged exactly when at least one dumped field value,
the mandatory name included, is neither None, the empty string nor the literal
string "None". -/
theorem c3_insert_policy_amended (c : Company) :
    stagedOf [c] =
      if (model_dump c).any (fun kv => keepVal kv.2) then [stagedRow c] else [] := by
  have h : (valid_data c).isEmpty = !((model_dump c).any (fun kv => keepVal kv.2)) :=
    filter_isEmpty_eq_not_any _ _
  cases hA : (model_dump c).any (fun kv => keepVal kv.2) <;>
    · rw [hA] at h
      simp [stagedOf, List.filter_cons, h]

/-- C9: the staging insert filter treats None, the empty string and the literal
string "None" alike — none of them counts toward the nonempty-field condition —
and a candidate all of whose dumped values are such values is never inserted. -/
theorem c9_insert_filter_noneish (c : Company)
    (h : ∀ kv ∈ model_dump c, kv.2 = none ∨ kv.2 = some "" ∨ kv.2 = some "None") :
    stagedOf [c] = [] ∧ keepVal none = false ∧ keepVal (some "") = false ∧
      keepVal (some "None") = false := by
  refine ⟨?_, rfl, rfl, rfl⟩
  have hv : valid_data c = [] := by
    unfold valid_data
    rw [List.filter_eq_nil_iff]
    intro kv hkv
    rcases h kv hkv with h1 | h1 | h1 <;> simp [keepVal, h1]
  simp [stagedOf, List.filter_cons, hv]

theorem c9_witness :
    stagedOf [noneishCompany] = [] ∧ keepVal none = false ∧ keepVal (some "") = false ∧
      keepVal (some "None") = false :=
  c9_insert_filter_noneish noneishCompany (by decide)

/-- C10 (counterexample): the empty string is accepted unchecked by the
candidate-record phone validator — Python falsiness bypasses the check — and the
stored value does not match the strict phone pattern, so the claim as stated
over every accepted value fails. -/
theorem c10_counterexample :
    Company.validate_phone_number (some "") = Except.ok (some "") ∧
    strictPhoneMatch "" = false :=
  ⟨rfl, by decide⟩

/-- C10 (amended): whenever a nonempty phone value is accepted by the
candidate-record phone validator, the stored value is the stripped normal form —
every character a digit or a plus sign, matching the strict phone pattern — so
the original formatting characters are never preserved. -/
theorem c10_phone_normal_form (v w : String) (hv : v ≠ "")
    (h : Company.validate_phone_number (some v) = Except.ok (some w)) :
    w = stripNonDigitPlus v ∧ strictPhoneMatch w = true ∧
      w.data.all isPhoneChar = true := by
  simp only [Company.validate_phone_number] at h
  rw [if_neg hv] at h
  cases hm : strictPhoneMatch (stripNonDigitPlus v) with
  | false => rw [hm] at h; simp at h
  | true =>
    rw [hm] at h
    simp only [if_true] at h
    have hw : w = stripNonDigitPlus v := by
      injection h with h'
      injection h' with h''
      exact h''.symm
    subst hw
    exact ⟨rfl, hm, strictPhoneMatch_all_phoneChar _ hm⟩

theorem c10_witness :
    "5551234567" = stripNonDigitPlus "(555) 123-4567" ∧
      strictPhoneMatch "5551234567" = true ∧
      "5551234567".data.all isPhoneChar = true :=
  c10_phone_normal_form "(555) 123-4567" "5551234567" (by decide) rfl

theorem bind_passThrough (f : Option String → Except String (Option String))
    (hf : ∀ v w, f v = Except.ok w → w = v) (v : Option String) :
    Except.bind (f v) f = f v := by
  cases hres : f v with
  | error e => rfl
  | ok w =>
    show f w = Except.ok w
    have hwv := hf v w hres
    subst hwv
    exact hres

theorem validate_phone_number_idem (v : Option String) :
    validate_phone_number (validate_phone_number v) = validate_phone_number v ∧
    (validate_phone_number v = v ∨ validate_phone_number v = none) := by
  cases v with
  | none => exact ⟨rfl, Or.inl rfl⟩
  | some s =>
    by_cases hs : s = ""
    · subst hs; exact ⟨rfl, Or.inl rfl⟩
    · by_cases hm : permissivePhoneMatch s
      · constructor
        · simp [validate_phone_number, hs, hm]
        · left; simp [validate_phone_number, hs, hm]
      · constructor
        · simp [validate_phone_number, hs, hm]
        · right; simp [validate_phone_number, hs, hm]

theorem validate_linkedin_url_idem (v : Option String) :
    validate_linkedin_url (validate_linkedin_url v) = validate_linkedin_url v ∧
    (validate_linkedin_url v = v ∨ validate_linkedin_url v = none) := by
  cases v with
  | none => exact ⟨rfl, Or.inl rfl⟩
  | some s =>
    by_cases hs : s = ""
    · subst hs; exact ⟨rfl, Or.inl rfl⟩
    · by_cases hm : substrIn "linkedin.com" s
      · constructor
        · simp [validate_linkedin_url, hs, hm]
        · left; simp [validate_linkedin_url, hs, hm]
      · constructor
        · simp [validate_linkedin_url, hs, hm]
        · right; simp [validate_linkedin_url, hs, hm]

theorem validate_x_twitter_url_idem (v : Option String) :
    validate_x_twitter_url (validate_x_twitter_url v) = validate_x_twitter_url v ∧
    (validate_x_twitter_url v = v ∨ validate_x_twitter_url v = none) := by
  cases v with
  | none => exact ⟨rfl, Or.inl rfl⟩
  | some s =>
    by_cases hs : s = ""
    · subst hs; exact ⟨rfl, Or.inl rfl⟩
    · by_cases hm : (substrIn "twitter.com" s || substrIn "x.com" s : Bool)
      · constructor
        · simp [validate_x_twitter_url, hs, hm]
        · left; simp [validate_x_twitter_url, hs, hm]
      · constructor
        · simp [validate_x_twitter_url, hs, hm]
        · right; simp [validate_x_twitter_url, hs, hm]

theorem company_phone_bind_idem (v : Option String) :
    Except.bind (Company.validate_phone_number v) Company.validate_phone_number =
      Company.validate_phone_number v := by
  cases v with
  | none => rfl
  | some s =>
    by_cases hs : s = ""
    · subst hs; rfl
    · cases hm : strictPhoneMatch (stripNonDigitPlus s) with
      | false =>
        rw [show Company.validate_phone_number (some s) =
              Except.error "Invalid phone number format" by
            simp [Company.validate_phone_number, hs, hm]]
        rfl
      | true =>
        have hne : stripNonDigitPlus s ≠ "" := strictPhoneMatch_ne_empty _ hm
        have hfix : stripNonDigitPlus (stripNonDigitPlus s) = stripNonDigitPlus s :=
          stripNonDigitPlus_idem s
        rw [show Company.validate_phone_number (some s) =
              Except.ok (some (stripNonDigitPlus s)) by
            simp [Company.validate_phone_number, hs, hm]]
        show Company.validate_phone_number (some (stripNonDigitPlus s)) =
          Except.ok (some (stripNonDigitPlus s))
        simp [Company.validate_phone_number, hne, hfix, hm]

/-- C8: every field validator is idempotent.  The three module-level validators
satisfy the literal equation and their output is the input unchanged or cleared;
the four pydantic field validators, which can raise, are idempotent in the
Kleisli sense: feeding an accepted output back through the validator reproduces
it, and an error propagates unchanged. -/
theorem c8_validator_idempotence (v : Option String) :
    validate_phone_number (validate_phone_number v) = validate_phone_number v ∧
    (validate_phone_number v = v ∨ validate_phone_number v = none) ∧
    validate_linkedin_url (validate_linkedin_url v) = validate_linkedin_url v ∧
    (validate_linkedin_url v = v ∨ validate_linkedin_url v = none) ∧
    validate_x_twitter_url (validate_x_twitter_url v) = validate_x_twitter_url v ∧
    (validate_x_twitter_url v = v ∨ validate_x_twitter_url v = none) ∧
    Except.bind (Company.validate_phone_number v) Company.validate_phone_number =
      Company.validate_phone_number v ∧
    Except.bind (Company.validate_linkedin_url v) Company.validate_linkedin_url =
      Company.validate_linkedin_url v ∧
    Except.bind (Company.validate_x_twitter_url v) Company.validate_x_twitter_url =
      Company.validate_x_twitter_url v ∧
    Except.bind (Company.validate_ticket_size v) Company.validate_ticket_size =
      Company.validate_ticket_size v :=
  ⟨(validate_phone_number_idem v).1, (validate_phone_number_idem v).2,
   (validate_linkedin_url_idem v).1, (validate_linkedin_url_idem v).2,
   (validate_x_twitter_url_idem v).1, (validate_x_twitter_url_idem v).2,
   company_phone_bind_idem v,
   bind_passThrough _ linkedin_passThrough v,
   bind_passThrough _ x_twitter_passThrough v,
   bind_passThrough _ ticket_passThrough v⟩


theorem submitsOf_nil : submitsOf [] = [] := rfl

theorem submitsOf_submit (u : List RawRecord) (tr : List Event) :
    submitsOf (Event.submit u :: tr) = u :: submitsOf tr := rfl

theorem submitsOf_progress (k : Nat) (tr : List Event) :
    submitsOf (Event.progress k :: tr) = submitsOf tr := rfl

theorem progressIncs_nil : progressIncs [] = [] := rfl

theorem progressIncs_submit (u : List RawRecord) (tr : List Event) :
    progressIncs (Event.submit u :: tr) = progressIncs tr := rfl

theorem progressIncs_progress (k : Nat) (tr : List Event) :
    progressIncs (Event.progress k :: tr) = k :: progressIncs tr := rfl

theorem chunkAux_step {α : Type} (B : Nat) (l : List α) :
    ∀ buffer : List α, buffer.length < B → buffer ++ l ≠ [] →
      chunkAux B buffer l =
        (buffer ++ l).take B :: chunkAux B [] ((buffer ++ l).drop B) := by
  induction l with
  | nil =>
    intro buffer hbuf hne
    rw [List.append_nil] at hne ⊢
    rw [List.take_of_length_le (le_of_lt hbuf), List.drop_eq_nil_of_le (le_of_lt hbuf)]
    simp [chunkAux, hne]
  | cons r rest ih =>
    intro buffer hbuf _
    by_cases hB2 : B ≤ buffer.length + 1
    · have hlen2 : (buffer ++ [r]).length = B := by
        simp only [List.length_append, List.length_singleton]
        omega
      have hsplit : buffer ++ r :: rest = (buffer ++ [r]) ++ rest := by simp
      rw [hsplit, List.take_left' hlen2, List.drop_left' hlen2]
      simp [chunkAux, hB2]
    · have hbuf2 : (buffer ++ [r]).length < B := by
        simp only [List.length_append, List.length_singleton]
        omega
      have hne2 : (buffer ++ [r]) ++ rest ≠ [] := by simp
      have hstep : chunkAux B buffer (r :: rest) = chunkAux B (buffer ++ [r]) rest := by
        simp [chunkAux, hB2]
      rw [hstep, ih (buffer ++ [r]) hbuf2 hne2]
      have hsplit : (buffer ++ [r]) ++ rest = buffer ++ r :: rest := by simp
      rw [hsplit]

theorem chunks_step {α : Type} (B : Nat) (hB : 1 ≤ B) (l : List α) (h0 : l ≠ []) :
    chunks B l = l.take B :: chunks B (l.drop B) := by
  have h := chunkAux_step B l []
    (by simp only [List.length_nil]; omega) (by simpa using h0)
  simpa [chunks] using h

theorem chunks_ne_nil {α : Type} (B : Nat) (hB : 1 ≤ B) (l : List α) (h0 : l ≠ []) :
    chunks B l ≠ [] := by
  rw [chunks_step B hB l h0]
  simp

theorem chunks_flatten {α : Type} (B : Nat) (hB : 1 ≤ B) (l : List α) :
    (chunks B l).flatten = l := by
  suffices h : ∀ (n : Nat) (l : List α), l.length ≤ n → (chunks B l).flatten = l from
    h l.length l le_rfl
  intro n
  induction n with
  | zero =>
    intro l hl
    have h0 : l = [] := List.length_eq_zero.mp (Nat.le_zero.mp hl)
    subst h0; rfl
  | succ n ih =>
    intro l hl
    by_cases h0 : l = []
    · subst h0; rfl
    · rw [chunks_step B hB l h0, List.flatten_cons]
      have hlen1 : 0 < l.length := List.length_pos.mpr h0
      have hdrop : (l.drop B).length ≤ n := by rw [List.length_drop]; omega
      rw [ih (l.drop B) hdrop]
      exact List.take_append_drop B l

theorem chunks_length_eq {α : Type} (B : Nat) (hB : 1 ≤ B) (l : List α) :
    (chunks B l).length = (l.length + B - 1) / B := by
  suffices h : ∀ (n : Nat) (l : List α), l.length ≤ n →
      (chunks B l).length = (l.length + B - 1) / B from h l.length l le_rfl
  intro n
  induction n with
  | zero =>
    intro l hl
    have h0 : l = [] := List.length_eq_zero.mp (Nat.le_zero.mp hl)
    subst h0
    simp only [List.length_nil]
    rw [Nat.div_eq_of_lt (by omega)]
    rfl
  | succ n ih =>
    intro l hl
    by_cases h0 : l = []
    · subst h0
      simp only [List.length_nil]
      rw [Nat.div_eq_of_lt (by omega)]
      rfl
    · rw [chunks_step B hB l h0, List.length_cons]
      have hlen1 : 0 < l.length := List.length_pos.mpr h0
      have hdrop : (l.drop B).length ≤ n := by rw [List.length_drop]; omega
      rw [ih (l.drop B) hdrop, List.length_drop]
      have e2 : l.length + B - 1 = (l.length - 1) + B := by omega
      rw [e2, Nat.add_div_right _ (by omega)]
      have e3 : (l.length - B + B - 1) / B = (l.length - 1) / B := by
        rcases le_or_lt B l.length with hBL | hBL
        · have e1 : l.length - B + B - 1 = l.length - 1 := by omega
          rw [e1]
        · rw [Nat.div_eq_of_lt (by omega), Nat.div_eq_of_lt (by omega)]
      rw [e3]

theorem chunks_notLast_size {α : Type} (B : Nat) (hB : 1 ≤ B) (l : List α) :
    ∀ i u, i + 1 < (chunks B l).length → (chunks B l).get? i = some u →
      u.length = B := by
  suffices h : ∀ (n : Nat) (l : List α), l.length ≤ n → ∀ i u,
      i + 1 < (chunks B l).length → (chunks B l).get? i = some u → u.length = B from
    h l.length l le_rfl
  intro n
  induction n with
  | zero =>
    intro l hl i u hi _
    have h0 : l = [] := List.length_eq_zero.mp (Nat.le_zero.mp hl)
    subst h0
    simp [chunks, chunkAux] at hi
  | succ n ih =>
    intro l hl i u hi hg
    by_cases h0 : l = []
    · subst h0; simp [chunks, chunkAux] at hi
    · rw [chunks_step B hB l h0] at hi hg
      cases i with
      | zero =>
        by_cases hd : l.drop B = []
        · rw [hd] at hi
          simp [chunks, chunkAux] at hi
        · have hBlen : B ≤ l.length := by
            by_contra hc
            exact hd (List.drop_eq_nil_of_le (by omega))
          have hu : u = l.take B := by simpa using hg.symm
          rw [hu, List.length_take]
          omega
      | succ i =>
        have hlen1 : 0 < l.length := List.length_pos.mpr h0
        have hdrop : (l.drop B).length ≤ n := by rw [List.length_drop]; omega
        exact ih (l.drop B) hdrop i u (by simpa using hi) (by simpa using hg)

theorem chunks_last_size {α : Type} (B : Nat) (hB : 1 ≤ B) (l : List α) :
    ∀ u, (chunks B l).getLast? = some u →
      u.length = if l.length % B = 0 then B else l.length % B := by
  suffices h : ∀ (n : Nat) (l : List α), l.length ≤ n → ∀ u,
      (chunks B l).getLast? = some u →
      u.length = if l.length % B = 0 then B else l.length % B from
    h l.length l le_rfl
  intro n
  induction n with
  | zero =>
    intro l hl u hg
    have h0 : l = [] := List.length_eq_zero.mp (Nat.le_zero.mp hl)
    subst h0
    simp [chunks, chunkAux] at hg
  | succ n ih =>
    intro l hl u hg
    by_cases h0 : l = []
    · subst h0; simp [chunks, chunkAux] at hg
    · have hlen1 : 0 < l.length := List.length_pos.mpr h0
      rw [chunks_step B hB l h0] at hg
      by_cases hd : l.drop B = []
      · have hLB : l.length ≤ B := List.drop_eq_nil_iff.mp hd
        rw [hd] at hg
        have hu : u = l.take B := by
          rw [show chunks B ([] : List α) = [] from rfl] at hg
          simpa using hg.symm
        rw [hu, List.take_of_length_le hLB]
        rcases eq_or_lt_of_le hLB with hEq | hLt
        · rw [hEq, Nat.mod_self, if_pos rfl]
        · rw [Nat.mod_eq_of_lt hLt, if_neg (by omega)]
      · have hBL : B < l.length := by
          by_contra hc
          exact hd (List.drop_eq_nil_of_le (by omega))
        have hrest : chunks B (l.drop B) ≠ [] :=
          chunks_ne_nil B hB (l.drop B) hd
        obtain ⟨b, rest2, hr⟩ := List.exists_cons_of_ne_nil hrest
        rw [hr, List.getLast?_cons_cons] at hg
        have hdrop : (l.drop B).length ≤ n := by rw [List.length_drop]; omega
        have hlast := ih (l.drop B) hdrop u (by rw [hr]; exact hg)
        rw [List.length_drop] at hlast
        have hmod : l.length % B = (l.length - B) % B := by
          conv_lhs => rw [show l.length = (l.length - B) + B by omega]
          rw [Nat.add_mod_right]
        rw [hmod]
        exact hlast

theorem chunkAux_mem {α : Type} (B : Nat) (l : List α) :
    ∀ buffer : List α, ∀ u ∈ chunkAux B buffer l, ∀ s ∈ u, s ∈ buffer ∨ s ∈ l := by
  induction l with
  | nil =>
    intro buffer u hu s hs
    by_cases hb : buffer.isEmpty
    · simp [chunkAux, hb] at hu
    · simp [chunkAux, hb] at hu
      subst hu
      exact Or.inl hs
  | cons a rest ih =>
    intro buffer u hu s hs
    by_cases hB2 : B ≤ buffer.length + 1
    · simp only [chunkAux, if_pos hB2, List.mem_cons] at hu
      rcases hu with hu | hu
      · subst hu
        rcases List.mem_append.mp hs with h1 | h1
        · exact Or.inl h1
        · right
          simp only [List.mem_singleton] at h1
          simp [h1]
      · rcases ih [] u hu s hs with h1 | h1
        · exact absurd h1 (List.not_mem_nil s)
        · exact Or.inr (List.mem_cons_of_mem _ h1)
    · simp only [chunkAux, if_neg hB2] at hu
      rcases ih (buffer ++ [a]) u hu s hs with h1 | h1
      · rcases List.mem_append.mp h1 with h2 | h2
        · exact Or.inl h2
        · right
          simp only [List.mem_singleton] at h2
          simp [h2]
      · exact Or.inr (List.mem_cons_of_mem _ h1)

theorem submitsOf_producerAux (B : Nat) (rows : List RawRecord) :
    ∀ buffer : List RawRecord,
      submitsOf (producerAux B buffer rows) = chunkAux B buffer (rows.filter rowNonEmpty) := by
  induction rows with
  | nil =>
    intro buffer
    by_cases hb : buffer.isEmpty <;>
      simp [producerAux, chunkAux, hb, List.filter_nil,
        submitsOf_nil, submitsOf_submit, submitsOf_progress]
  | cons r rest ih =>
    intro buffer
    by_cases hr : rowNonEmpty r
    · by_cases hB2 : B ≤ buffer.length + 1 <;>
        simp [producerAux, chunkAux, List.filter_cons, hr, hB2,
          submitsOf_submit, submitsOf_progress, ih]
    · simp [producerAux, List.filter_cons, hr, ih]

theorem makeUnits_eq_chunks (B : Nat) (rows : List RawRecord) :
    makeUnits B rows = chunks B (rows.filter rowNonEmpty) :=
  submitsOf_producerAux B rows []

/-- C5: for N nonempty records and batch size B at least 1, the producer creates
exactly ceil(N / B) work units; every unit before the last has size B, the last
has size N mod B (or B when B divides N), and the units concatenate back to
exactly the nonempty records in order, so each record is submitted in exactly
one unit. -/
theorem c5_batch_completeness (B : Nat) (rows : List RawRecord) (hB : 1 ≤ B) :
    (makeUnits B rows).length = ((rows.filter rowNonEmpty).length + B - 1) / B ∧
    (∀ i u, i + 1 < (makeUnits B rows).length → (makeUnits B rows).get? i = some u →
      u.length = B) ∧
    (∀ u, (makeUnits B rows).getLast? = some u →
      u.length = if (rows.filter rowNonEmpty).length % B = 0 then B
        else (rows.filter rowNonEmpty).length % B) ∧
    (makeUnits B rows).flatten = rows.filter rowNonEmpty := by
  rw [makeUnits_eq_chunks]
  exact ⟨chunks_length_eq B hB _, chunks_notLast_size B hB _,
    chunks_last_size B hB _, chunks_flatten B hB _⟩

theorem c5_witness :
    (makeUnits 2 rows4).length = ((rows4.filter rowNonEmpty).length + 2 - 1) / 2 ∧
    (∀ i u, i + 1 < (makeUnits 2 rows4).length → (makeUnits 2 rows4).get? i = some u →
      u.length = 2) ∧
    (∀ u, (makeUnits 2 rows4).getLast? = some u →
      u.length = if (rows4.filter rowNonEmpty).length % 2 = 0 then 2
        else (rows4.filter rowNonEmpty).length % 2) ∧
    (makeUnits 2 rows4).flatten = rows4.filter rowNonEmpty :=
  c5_batch_completeness 2 rows4 (by decide)

theorem producerAux_skip_empty (B : Nat) (r : RawRecord) (h : rowNonEmpty r = false)
    (post : List RawRecord) (pre : List RawRecord) :
    ∀ buffer : List RawRecord,
      producerAux B buffer (pre ++ r :: post) = producerAux B buffer (pre ++ post) := by
  induction pre with
  | nil =>
    intro buffer
    simp [producerAux, h]
  | cons p ps ih =>
    intro buffer
    by_cases hp : rowNonEmpty p
    · by_cases hB2 : B ≤ buffer.length + 1 <;>
        simp [producerAux, hp, hB2, ih]
    · simp [producerAux, hp, ih]

/-- C7: a fully empty input row is invisible to the dispatcher — the whole event
trace of the producer loop, and hence the sequence of submitted work units, their
number and the progress updates, is the same as if the row were absent; moreover
every record appearing in any submitted unit is a nonempty row, so the empty row
occupies no slot in any batch and is never handed to a unit that could fail on
it. -/
theorem c7_empty_row_skip (B : Nat) (pre post : List RawRecord) (r : RawRecord)
    (h : rowNonEmpty r = false) :
    producerTrace B (pre ++ r :: post) = producerTrace B (pre ++ post) ∧
    makeUnits B (pre ++ r :: post) = makeUnits B (pre ++ post) ∧
    (∀ u ∈ makeUnits B (pre ++ r :: post), ∀ s ∈ u, rowNonEmpty s = true) := by
  have htr : producerTrace B (pre ++ r :: post) = producerTrace B (pre ++ post) :=
    producerAux_skip_empty B r h post pre []
  refine ⟨htr, by rw [makeUnits, htr]; rfl, ?_⟩
  intro u hu s hs
  rw [makeUnits_eq_chunks] at hu
  rcases chunkAux_mem B _ [] u hu s hs with h1 | h1
  · exact absurd h1 (List.not_mem_nil s)
  · exact (List.mem_filter.mp h1).2

theorem c7_witness :
    producerTrace 2 ([["a"]] ++ ["", ""] :: [["b"]]) = producerTrace 2 ([["a"]] ++ [["b"]]) ∧
    makeUnits 2 ([["a"]] ++ ["", ""] :: [["b"]]) = makeUnits 2 ([["a"]] ++ [["b"]]) ∧
    (∀ u ∈ makeUnits 2 ([["a"]] ++ ["", ""] :: [["b"]]), ∀ s ∈ u, rowNonEmpty s = true) :=
  c7_empty_row_skip 2 [["a"]] [["b"]] ["", ""] (by decide)

theorem sumIncs_producerAux (B : Nat) (hB : 1 ≤ B) (rows : List RawRecord) :
    ∀ buffer : List RawRecord, buffer.length < B →
      sumIncs (producerAux B buffer rows) =
        (rows.filter rowNonEmpty).length +
          (buffer.length + (rows.filter rowNonEmpty).length) % B := by
  induction rows with
  | nil =>
    intro buffer hbuf
    by_cases hb : buffer.isEmpty
    · have hb2 : buffer = [] := by simpa using hb
      subst hb2
      simp [producerAux, sumIncs, progressIncs_nil]
    · rw [show producerAux B buffer [] =
          [Event.submit buffer, Event.progress buffer.length] by simp [producerAux, hb]]
      simp only [List.filter_nil, List.length_nil, Nat.zero_add, Nat.add_zero]
      rw [show sumIncs [Event.submit buffer, Event.progress buffer.length] =
            buffer.length by
          simp [sumIncs, progressIncs_submit, progressIncs_progress, progressIncs_nil]]
      exact (Nat.mod_eq_of_lt hbuf).symm
  | cons r rest ih =>
    intro buffer hbuf
    by_cases hr : rowNonEmpty r
    · simp only [List.filter_cons, hr, if_pos, List.length_cons]
      by_cases hB2 : B ≤ buffer.length + 1
      · rw [show producerAux B buffer (r :: rest) =
            Event.submit (buffer ++ [r]) :: Event.progress 1 :: producerAux B [] rest by
            simp [producerAux, hr, hB2]]
        rw [show sumIncs (Event.submit (buffer ++ [r]) :: Event.progress 1 ::
              producerAux B [] rest) = 1 + sumIncs (producerAux B [] rest) by
            simp [sumIncs, progressIncs_submit, progressIncs_progress]]
        have hi := ih [] (by simp only [List.length_nil]; omega)
        simp only [List.length_nil, Nat.zero_add] at hi
        rw [hi]
        have harg : buffer.length + ((rest.filter rowNonEmpty).length + 1) =
            (rest.filter rowNonEmpty).length + B := by omega
        rw [harg, Nat.add_mod_right]
        generalize (rest.filter rowNonEmpty).length % B = m
        omega
      · rw [show producerAux B buffer (r :: rest) =
            Event.progress 1 :: producerAux B (buffer ++ [r]) rest by
            simp [producerAux, hr, hB2]]
        rw [show sumIncs (Event.progress 1 :: producerAux B (buffer ++ [r]) rest) =
            1 + sumIncs (producerAux B (buffer ++ [r]) rest) by
            simp [sumIncs, progressIncs_progress]]
        have hbuf2 : (buffer ++ [r]).length < B := by
          simp only [List.length_append, List.length_singleton]
          omega
        rw [ih (buffer ++ [r]) hbuf2]
        simp only [List.length_append, List.length_singleton]
        have harg : buffer.length + 1 + (rest.filter rowNonEmpty).length =
            buffer.length + ((rest.filter rowNonEmpty).length + 1) := by omega
        rw [harg]
        generalize (buffer.length + ((rest.filter rowNonEmpty).length + 1)) % B = m
        omega
    · rw [show producerAux B buffer (r :: rest) = producerAux B buffer rest by
          simp [producerAux, hr]]
      simp only [List.filter_cons, hr]
      exact ih buffer hbuf

theorem sumIncs_producerTrace (B : Nat) (hB : 1 ≤ B) (rows : List RawRecord) :
    sumIncs (producerTrace B rows) =
      (rows.filter rowNonEmpty).length + (rows.filter rowNonEmpty).length % B := by
  have h := sumIncs_producerAux B hB rows [] (by simp only [List.length_nil]; omega)
  simpa [producerTrace] using h

theorem head?_scanl_add (a : Nat) (l : List Nat) :
    (List.scanl (fun x y => x + y) a l).head? = some a := by
  cases l <;> rfl

theorem chain_le_scanl_add (l : List Nat) : ∀ a : Nat,
    List.Chain' (fun x y => x ≤ y) (List.scanl (fun x y => x + y) a l) := by
  induction l with
  | nil => intro a; simp [List.scanl_nil]
  | cons x xs ih =>
    intro a
    rw [List.scanl_cons, List.singleton_append]
    refine List.chain'_cons'.mpr ⟨?_, ih (a + x)⟩
    intro y hy
    rw [head?_scanl_add] at hy
    simp only [Option.mem_some_iff] at hy
    subst hy
    exact Nat.le_add_right a x

theorem mem_scanl_add_le (l : List Nat) : ∀ a v : Nat,
    v ∈ List.scanl (fun x y => x + y) a l → v ≤ a + l.sum := by
  induction l with
  | nil =>
    intro a v hv
    simp only [List.scanl_nil, List.mem_singleton] at hv
    simp [hv]
  | cons x xs ih =>
    intro a v hv
    rw [List.scanl_cons, List.singleton_append] at hv
    rw [List.sum_cons]
    rcases List.mem_cons.mp hv with h | h
    · subst h; omega
    · have hle := ih (a + x) v h
      omega

/-- C6 (counterexample): with batch size 5 and three nonempty rows, the first
reported progress update happens before any work unit is even submitted — so
before any unit can complete — and the counter ends at 6, exceeding the total of
3 rows discovered at start, because the rows left in the final partial buffer
are counted a second time when that buffer is submitted. -/
theorem c6_counterexample :
    producerTrace 5 rows3 =
      [Event.progress 1, Event.progress 1, Event.progress 1,
        Event.submit [["x"], ["y"], ["z"]], Event.progress 3] ∧
    sumIncs (producerTrace 5 rows3) = 6 ∧
    rows3.length = 3 ∧
    progressValues 5 rows3 = [0, 1, 2, 3, 6] :=
  ⟨rfl, rfl, rfl, rfl⟩

/-- C6 (amended): the progress counter advances once per nonempty row as the row
is read and buffered — not when a work unit completes — plus once more by the
size of the final partial buffer when it is submitted; the counter is
monotonically increasing, and its values are bounded by N + N mod B for N
nonempty rows, a bound that exceeds the initially discovered total whenever the
last unit is partial. -/
theorem c6_progress_amended (B : Nat) (rows : List RawRecord) (hB : 1 ≤ B) :
    List.Chain' (fun x y => x ≤ y) (progressValues B rows) ∧
    sumIncs (producerTrace B rows) =
      (rows.filter rowNonEmpty).length + (rows.filter rowNonEmpty).length % B ∧
    (∀ v ∈ progressValues B rows,
      v ≤ (rows.filter rowNonEmpty).length + (rows.filter rowNonEmpty).length % B) := by
  refine ⟨chain_le_scanl_add _ 0, sumIncs_producerTrace B hB rows, ?_⟩
  intro v hv
  have h1 := mem_scanl_add_le _ 0 v hv
  rw [Nat.zero_add] at h1
  exact le_of_le_of_eq h1 (sumIncs_producerTrace B hB rows)

theorem c6_witness :
    List.Chain' (fun x y => x ≤ y) (progressValues 5 rows3) ∧
    sumIncs (producerTrace 5 rows3) =
      (rows3.filter rowNonEmpty).length + (rows3.filter rowNonEmpty).length % 5 ∧
    (∀ v ∈ progressValues 5 rows3,
      v ≤ (rows3.filter rowNonEmpty).length + (rows3.filter rowNonEmpty).length % 5) :=
  c6_progress_amended 5 rows3 (by decide)

theorem flatten_map_skip {β : Type} (f : Nat → List β) (k : Nat) (hf : f k = []) :
    ∀ l : List Nat,
      (l.map f).flatten = ((l.filter (fun i => !(i == k))).map f).flatten := by
  intro l
  induction l with
  | nil => rfl
  | cons a l ih =>
    by_cases ha : a = k
    · subst ha
      simp [List.filter_cons, hf, ih]
    · simp [List.filter_cons, ha, ih]

/-- C4: when the extraction call of exactly one work unit fails, that unit
stages zero rows and contributes exactly one error-log line carrying the
timestamp and the cause; the line appears in the run's error log; the rows
staged by the whole run are exactly the concatenation over the non-failing
units, so the exported row count is the sum of the non-failing units' valid
records only; and the outcome of every other unit is unchanged under any
extraction oracle agreeing outside the failing unit — the run completes and
exports. -/
theorem c4_failure_isolation (B t k : Nat) (rows : List RawRecord)
    (extract extract2 : Nat → Except String (List RawCompany)) (e : String)
    (hk : k < (makeUnits B rows).length)
    (hfail : extract k = Except.error e)
    (hag : ∀ i, i ≠ k → extract2 i = extract i) :
    (process_batch t (extract k)).1 = [] ∧
    (process_batch t (extract k)).2 =
      [⟨t, "Skipping batch due to unexpected error: " ++ e⟩] ∧
    (⟨t, "Skipping batch due to unexpected error: " ++ e⟩ : LogLine) ∈
      runLog t extract (makeUnits B rows).length ∧
    runStaged t extract (makeUnits B rows).length =
      (((List.range (makeUnits B rows).length).filter (fun i => !(i == k))).map
        (fun i => (process_batch t (extract i)).1)).flatten ∧
    (runStaged t extract (makeUnits B rows).length).length =
      (((List.range (makeUnits B rows).length).filter (fun i => !(i == k))).map
        (fun i => (process_batch t (extract i)).1.length)).sum ∧
    ((List.range (makeUnits B rows).length).filter (fun i => !(i == k))).map
        (fun i => process_batch t (extract2 i)) =
      ((List.range (makeUnits B rows).length).filter (fun i => !(i == k))).map
        (fun i => process_batch t (extract i)) := by
  have h1 : process_batch t (extract k) =
      ([], [⟨t, "Skipping batch due to unexpected error: " ++ e⟩]) := by
    rw [hfail]
    rfl
  refine ⟨by rw [h1], by rw [h1], ?_, ?_, ?_, ?_⟩
  · rw [runLog, List.mem_flatten]
    refine ⟨[⟨t, "Skipping batch due to unexpected error: " ++ e⟩], ?_,
      List.mem_singleton_self _⟩
    rw [List.mem_map]
    exact ⟨k, List.mem_range.mpr hk, by rw [h1]⟩
  · rw [runStaged]
    exact flatten_map_skip _ k
      (by show (process_batch t (extract k)).1 = []; rw [h1]) (List.range _)
  · rw [runStaged,
      flatten_map_skip (fun i => (process_batch t (extract i)).1) k
        (by show (process_batch t (extract k)).1 = []; rw [h1]) (List.range _),
      List.length_flatten, List.map_map]
    rfl
  · apply List.map_congr_left
    intro i hi
    have hik : i ≠ k := by
      have h2 := (List.mem_filter.mp hi).2
      simpa using h2
    rw [hag i hik]

theorem c4_witness :
    (process_batch 7 (extractW 0)).1 = [] ∧
    (process_batch 7 (extractW 0)).2 =
      [⟨7, "Skipping batch due to unexpected error: " ++ "boom"⟩] ∧
    (⟨7, "Skipping batch due to unexpected error: " ++ "boom"⟩ : LogLine) ∈
      runLog 7 extractW (makeUnits 1 [["a"], ["b"]]).length ∧
    runStaged 7 extractW (makeUnits 1 [["a"], ["b"]]).length =
      (((List.range (makeUnits 1 [["a"], ["b"]]).length).filter (fun i => !(i == 0))).map
        (fun i => (process_batch 7 (extractW i)).1)).flatten ∧
    (runStaged 7 extractW (makeUnits 1 [["a"], ["b"]]).length).length =
      (((List.range (makeUnits 1 [["a"], ["b"]]).length).filter (fun i => !(i == 0))).map
        (fun i => (process_batch 7 (extractW i)).1.length)).sum ∧
    ((List.range (makeUnits 1 [["a"], ["b"]]).length).filter (fun i => !(i == 0))).map
        (fun i => process_batch 7 (extractW i)) =
      ((List.range (makeUnits 1 [["a"], ["b"]]).length).filter (fun i => !(i == 0))).map
        (fun i => process_batch 7 (extractW i)) :=
  c4_failure_isolation 1 7 0 [["a"], ["b"]] extractW extractW "boom"
    (by decide) rfl (fun i _ => rfl)

theorem c2_witness :
    process_batch 0 (Except.ok [c2raw]) =
      ([], [⟨0, "Skipping batch due to validation error: value is not a valid email address"⟩]) :=
  c2_scenario_a_amended 0

theorem c3_witness :
    stagedOf [nameOnlyCompany] =
      if (model_dump nameOnlyCompany).any (fun kv => keepVal kv.2)
      then [stagedRow nameOnlyCompany] else [] :=
  c3_insert_policy_amended nameOnlyCompany

theorem c8_witness :
    validate_phone_number (validate_phone_number (some "555-1234567")) =
      validate_phone_number (some "555-1234567") ∧
    (validate_phone_number (some "555-1234567") = some "555-1234567" ∨
      validate_phone_number (some "555-1234567") = none) ∧
    validate_linkedin_url (validate_linkedin_url (some "555-1234567")) =
      validate_linkedin_url (some "555-1234567") ∧
    (validate_linkedin_url (some "555-1234567") = some "555-1234567" ∨
      validate_linkedin_url (some "555-1234567") = none) ∧
    validate_x_twitter_url (validate_x_twitter_url (some "555-1234567")) =
      validate_x_twitter_url (some "555-1234567") ∧
    (validate_x_twitter_url (some "555-1234567") = some "555-1234567" ∨
      validate_x_twitter_url (some "555-1234567") = none) ∧
    Except.bind (Company.validate_phone_number (some "555-1234567"))
        Company.validate_phone_number =
      Company.validate_phone_number (some "555-1234567") ∧
    Except.bind (Company.validate_linkedin_url (some "555-1234567"))
        Company.validate_linkedin_url =
      Company.validate_linkedin_url (some "555-1234567") ∧
    Except.bind (Company.validate_x_twitter_url (some "555-1234567"))
        Company.validate_x_twitter_url =
      Company.validate_x_twitter_url (some "555-1234567") ∧
    Except.bind (Company.validate_ticket_size (some "555-1234567"))
        Company.validate_ticket_size =
      Company.validate_ticket_size (some "555-1234567") :=
  c8_validator_idempotence (some "555-1234567")
